import Mathlib

/-!
Verification of the BOE consolidated-legislation ingestion core:
shallow embedding of the idempotency (hashing / deterministic IDs),
text processing (normalization, chunking), embeddings (as-of search
filter, point-ID derivation) and sync-DAG (change detection, version
ledger insert path) modules, together with theorems settling the
spec's claims about them.

Machine integers are modelled as `Nat` with explicit reduction
modulo `2^32` where the underlying algorithm (SHA-256) works on
32-bit words.
-/

namespace Boe

/-! ### Hexadecimal rendering -/

/-- Lowercase hexadecimal digit for a nibble (values ≥ 16 are clamped
by the caller via `% 16`). -/
def hexDigit (n : Nat) : Char :=
  if n < 10 then Char.ofNat (48 + n) else Char.ofNat (87 + n)

/-- The sixteen lowercase hexadecimal characters. -/
def hexChars : List Char := "0123456789abcdef".toList

/-- Fixed-width (8 hex characters) rendering of a 32-bit word. -/
def hexWord (w : Nat) : List Char :=
  [hexDigit ((w >>> 28) % 16), hexDigit ((w >>> 24) % 16),
   hexDigit ((w >>> 20) % 16), hexDigit ((w >>> 16) % 16),
   hexDigit ((w >>> 12) % 16), hexDigit ((w >>> 8) % 16),
   hexDigit ((w >>> 4) % 16), hexDigit (w % 16)]

/-! ### UTF-8 encoding (model of Python's `str.encode('utf-8')`) -/

/-- UTF-8 byte sequence of a single code point. -/
def utf8Char (c : Char) : List Nat :=
  let n := c.toNat
  if n < 128 then [n]
  else if n < 2048 then [192 + n / 64, 128 + n % 64]
  else if n < 65536 then [224 + n / 4096, 128 + (n / 64) % 64, 128 + n % 64]
  else [240 + n / 262144, 128 + (n / 4096) % 64, 128 + (n / 64) % 64, 128 + n % 64]

/-- UTF-8 encoding of a character list. -/
def encodeUtf8List : List Char → List Nat
  | [] => []
  | c :: cs => utf8Char c ++ encodeUtf8List cs

/-- UTF-8 encoding of a string, as a list of byte values. -/
def encodeUtf8 (s : String) : List Nat := encodeUtf8List s.data

/-! ### SHA-256 over byte lists (words as `Nat` mod `2^32`) -/

/-- The word modulus `2^32`. -/
def M32 : Nat := 4294967296

/-- Addition modulo `2^32`. -/
def add32 (a b : Nat) : Nat := (a + b) % M32

/-- Bitwise xor (closed on 32-bit values). -/
def xor32 (a b : Nat) : Nat := Nat.xor a b

/-- Bitwise complement on 32 bits. -/
def not32 (x : Nat) : Nat := Nat.xor x 4294967295

/-- Right rotation of a 32-bit word by `k`. -/
def rotr32 (k x : Nat) : Nat :=
  Nat.lor (x >>> k) ((x <<< (32 - k)) % M32)

def smallSigma0 (x : Nat) : Nat := xor32 (xor32 (rotr32 7 x) (rotr32 18 x)) (x >>> 3)

def smallSigma1 (x : Nat) : Nat := xor32 (xor32 (rotr32 17 x) (rotr32 19 x)) (x >>> 10)

def bigSigma0 (x : Nat) : Nat := xor32 (xor32 (rotr32 2 x) (rotr32 13 x)) (rotr32 22 x)

def bigSigma1 (x : Nat) : Nat := xor32 (xor32 (rotr32 6 x) (rotr32 11 x)) (rotr32 25 x)

def chWord (x y z : Nat) : Nat := xor32 (Nat.land x y) (Nat.land (not32 x) z)

def majWord (x y z : Nat) : Nat :=
  xor32 (xor32 (Nat.land x y) (Nat.land x z)) (Nat.land y z)

/-- The eight 32-bit working variables of the SHA-256 state. -/
structure H8 where
  a : Nat
  b : Nat
  c : Nat
  d : Nat
  e : Nat
  f : Nat
  g : Nat
  h : Nat
  deriving Repr, DecidableEq

/-- SHA-256 initial hash value (FIPS 180-4, written in decimal since
words are modelled as `Nat`). -/
def initH : H8 :=
  ⟨1779033703, 3144134277, 1013904242, 2773480762,
   1359893119, 2600822924, 528734635, 1541459225⟩

/-- SHA-256 round constants (FIPS 180-4, in decimal). -/
def sha256K : List Nat :=
  [1116352408, 1899447441, 3049323471, 3921009573,
   961987163, 1508970993, 2453635748, 2870763221,
   3624381080, 310598401, 607225278, 1426881987,
   1925078388, 2162078206, 2614888103, 3248222580,
   3835390401, 4022224774, 264347078, 604807628,
   770255983, 1249150122, 1555081692, 1996064986,
   2554220882, 2821834349, 2952996808, 3210313671,
   3336571891, 3584528711, 113926993, 338241895,
   666307205, 773529912, 1294757372, 1396182291,
   1695183700, 1986661051, 2177026350, 2456956037,
   2730485921, 2820302411, 3259730800, 3345764771,
   3516065817, 3600352804, 4094571909, 275423344,
   430227734, 506948616, 659060556, 883997877,
   958139571, 1322822218, 1537002063, 1747873779,
   1955562222, 2024104815, 2227730452, 2361852424,
   2428436474, 2756734187, 3204031479, 3329325298]

/-- Group a byte list into big-endian 32-bit words. -/
def bytesToWords : List Nat → List Nat
  | b0 :: b1 :: b2 :: b3 :: rest =>
      (((b0 * 256 + b1) * 256 + b2) * 256 + b3) :: bytesToWords rest
  | _ => []

/-- Next word of the message schedule, from the last sixteen entries. -/
def schedNext (w : List Nat) : Nat :=
  let n := w.length
  let g := fun i => w.getD (n - i) 0
  add32 (add32 (smallSigma1 (g 2)) (g 7)) (add32 (smallSigma0 (g 15)) (g 16))

/-- Extend the message schedule by `k` further words. -/
def extendSchedule : Nat → List Nat → List Nat
  | 0, w => w
  | k + 1, w => extendSchedule k (w ++ [schedNext w])

/-- One SHA-256 compression round on the working variables;
`kw` pairs the round constant with the schedule word. -/
def roundStep (st : H8) (kw : Nat × Nat) : H8 :=
  let t1 := add32 st.h (add32 (bigSigma1 st.e)
    (add32 (chWord st.e st.f st.g) (add32 kw.1 kw.2)))
  let t2 := add32 (bigSigma0 st.a) (majWord st.a st.b st.c)
  ⟨add32 t1 t2, st.a, st.b, st.c, add32 st.d t1, st.e, st.f, st.g⟩

/-- Compress one 64-byte block into the running state. -/
def compressBlock (st : H8) (block : List Nat) : H8 :=
  let ws := extendSchedule 48 (bytesToWords block)
  let r := (sha256K.zip ws).foldl roundStep st
  ⟨add32 st.a r.a, add32 st.b r.b, add32 st.c r.c, add32 st.d r.d,
   add32 st.e r.e, add32 st.f r.f, add32 st.g r.g, add32 st.h r.h⟩

/-- Eight big-endian bytes of the 64-bit message length. -/
def beBytes8 (n : Nat) : List Nat :=
  [(n >>> 56) % 256, (n >>> 48) % 256, (n >>> 40) % 256, (n >>> 32) % 256,
   (n >>> 24) % 256, (n >>> 16) % 256, (n >>> 8) % 256, n % 256]

/-- SHA-256 padding: append `0x80`, zeros to 56 mod 64, then the
bit length as eight big-endian bytes. -/
def padMessage (msg : List Nat) : List Nat :=
  let padZeros := (64 - (msg.length + 9) % 64) % 64
  msg ++ [128] ++ List.replicate padZeros 0 ++ beBytes8 (msg.length * 8)

/-- Fold the compression function over consecutive 64-byte blocks,
accumulating bytes into a buffer (structural recursion on the byte
list; the padded message's length is a multiple of 64, so the buffer
is empty when the bytes run out). -/
def compressChunks (st : H8) (buf : List Nat) : List Nat → H8
  | [] => st
  | b :: bs =>
      let buf' := buf ++ [b]
      if buf'.length = 64 then compressChunks (compressBlock st buf') [] bs
      else compressChunks st buf' bs

/-- Compress a whole (padded) byte list. -/
def compressAll (st : H8) (bs : List Nat) : H8 := compressChunks st [] bs

/-- Lowercase hex characters of the final digest. -/
def digestChars (st : H8) : List Char :=
  hexWord st.a ++ hexWord st.b ++ hexWord st.c ++ hexWord st.d ++
  hexWord st.e ++ hexWord st.f ++ hexWord st.g ++ hexWord st.h

/-- SHA-256 of a byte list, rendered as a 64-character lowercase
hex string. -/
def sha256Hex (msg : List Nat) : String :=
  String.mk (digestChars (compressAll initH (padMessage msg)))

/-- SHA-256 hex digest of a string's UTF-8 encoding: the model of
Python's `hashlib.sha256(s.encode('utf-8')).hexdigest()`. -/
def sha256OfString (s : String) : String := sha256Hex (encodeUtf8 s)

/-! ### Decimal rendering (model of Python's `str` on integers and
`date.isoformat`) -/

/-- The ten decimal digit characters. -/
def decChars : List Char := "0123456789".toList

/-- Decimal digit character for `n % 10`. -/
def decDigit (n : Nat) : Char := decChars.getD (n % 10) '0'

/-- Decimal digit accumulation with explicit fuel (structural, so
that it evaluates inside the kernel); `fuel ≥ n` always suffices. -/
def decDigitsCore : Nat → Nat → List Char
  | 0, n => [decDigit n]
  | fuel + 1, n =>
      if n < 10 then [decDigit n] else decDigitsCore fuel (n / 10) ++ [decDigit n]

/-- Decimal digit list of a natural number, most significant first
(model of Python's `str(n)` for non-negative `n`). -/
def decDigits (n : Nat) : List Char := decDigitsCore n n

/-- Model of Python's `str(n)` for a non-negative integer. -/
def pyStr (n : Nat) : String := String.mk (decDigits n)

/-- Numeric value of a digit character. -/
def charVal (c : Char) : Nat := c.toNat - 48

/-- Decode a decimal digit list back to a number (used to prove that
`decDigits` is injective). -/
def decVal (l : List Char) : Nat := l.foldl (fun a c => a * 10 + charVal c) 0

/-- A calendar date as Python's `datetime.date` stores it. -/
structure PyDate where
  year : Nat
  month : Nat
  day : Nat
  deriving Repr, DecidableEq

/-- The ranges `datetime.date` enforces on construction. -/
def PyDate.Valid (d : PyDate) : Prop :=
  1 ≤ d.year ∧ d.year ≤ 9999 ∧ 1 ≤ d.month ∧ d.month ≤ 12 ∧ 1 ≤ d.day ∧ d.day ≤ 31

instance (d : PyDate) : Decidable d.Valid := by
  unfold PyDate.Valid; infer_instance

/-- Two zero-padded decimal digits. -/
def pad2 (n : Nat) : List Char := [decDigit (n / 10), decDigit n]

/-- Four zero-padded decimal digits. -/
def pad4 (n : Nat) : List Char :=
  [decDigit (n / 1000), decDigit (n / 100), decDigit (n / 10), decDigit n]

/-- Model of Python's `date.isoformat()`: `YYYY-MM-DD`. -/
def isoformat (d : PyDate) : String :=
  String.mk (pad4 d.year ++ '-' :: pad2 d.month ++ '-' :: pad2 d.day)

/-! ### `utils/idempotency.py` -/

/-- Model of Python's `s or ''` for a plain string (the identity,
since `''` maps to `''`). -/
def orEmptyStr (s : String) : String := if s = "" then "" else s

/-- Model of Python's `x or ''` for an optional string: `None` and
`''` both yield `''`. -/
def orEmptyOpt : Option String → String
  | none => ""
  | some s => if s = "" then "" else s

/-- Model of `fecha_vigencia_desde.isoformat() if fecha_vigencia_desde
else ''` (a date object is always truthy). -/
def optIso : Option PyDate → String
  | none => ""
  | some d => isoformat d

/-- Model of Python's `'|'.join(components)`. -/
def pipeJoin : List String → String
  | [] => ""
  | [s] => s
  | s :: rest => s ++ "|" ++ pipeJoin rest

/-- Model of `calculate_hash`: SHA-256 hex digest of the UTF-8 encoded content,
with the `None` guard substituting the empty string. -/
def calculate_hash (content : Option String) : String :=
  let c := match content with
    | none => ""
    | some s => s
  sha256OfString c

/-- The `combined` pipe-joined component string that
`generate_id_version` hashes. -/
def serializeVersion (id_norma id_bloque : String) (fecha_vigencia_desde : Option PyDate)
    (id_norma_modificadora : Option String) (hash_html : String) : String :=
  pipeJoin [orEmptyStr id_norma, orEmptyStr id_bloque, optIso fecha_vigencia_desde,
            orEmptyOpt id_norma_modificadora, orEmptyStr hash_html]

/-- Model of `generate_id_version`: deterministic version ID, the SHA-256 hex
digest of the pipe-joined components. -/
def generate_id_version (id_norma id_bloque : String) (fecha_vigencia_desde : Option PyDate)
    (id_norma_modificadora : Option String) (hash_html : String) : String :=
  sha256OfString
    (serializeVersion id_norma id_bloque fecha_vigencia_desde id_norma_modificadora hash_html)

/-- The `combined` pipe-joined component string that
`generate_id_fragmento` hashes. -/
def serializeFragmento (id_version : String) (ordinal : Nat) (hash_texto : String) : String :=
  pipeJoin [orEmptyStr id_version, pyStr ordinal, orEmptyStr hash_texto]

/-- Model of `generate_id_fragmento`: deterministic fragment ID. -/
def generate_id_fragmento (id_version : String) (ordinal : Nat) (hash_texto : String) : String :=
  sha256OfString (serializeFragmento id_version ordinal hash_texto)

/-- Spec-side `version_id` (§4.1 of the spec): digest over the
pipe-joined, empty-string-substituted-for-null component list, in the
fixed field order (instrument ID, block ID, ISO effective-start,
amending-instrument ID, raw-markup hash). -/
def version_id_spec (instrument_id block_id : String) (effective_start : Option PyDate)
    (amending : Option String) (raw_markup_hash : String) : String :=
  sha256OfString (instrument_id ++ "|" ++ block_id ++ "|" ++ optIso effective_start ++ "|" ++
    amending.getD "" ++ "|" ++ raw_markup_hash)

/-! ### `utils/text_processing.py`

Python strings are modelled as `String` and indexed by code point via
`String.data : List Char` (Python slicing is per code point).
Python's `str.strip()` is modelled with `Char.isWhitespace`. -/

/-- Model of Python's `str.strip()` on a character list. -/
def pyStrip (l : List Char) : List Char :=
  ((l.dropWhile Char.isWhitespace).reverse.dropWhile Char.isWhitespace).reverse

/-- The `sentence_ends` two-character markers of `_split_by_size`. -/
def sentenceEnds : List (List Char) :=
  [['.', ' '], ['.', '\n'], ['.', '\t'], ['?', ' '], ['!', '\n'], ['!', ' ']]

/-- The backward scan `for i in range(end, search_start, -1)` of
`_split_by_size`: the greatest `i` with `searchStart < i ≤ end`,
`i + 2 ≤ len(text)` and `text[i:i+2]` a sentence end, if any. -/
def findSentenceBreak (text : List Char) (searchStart : Nat) : Nat → Option Nat
  | 0 => none
  | i + 1 =>
      if i + 1 ≤ searchStart then none
      else if i + 3 ≤ text.length ∧ ((text.drop (i + 1)).take 2) ∈ sentenceEnds then
        some (i + 1)
      else findSentenceBreak text searchStart i

/-- The adjusted chunk end of one `_split_by_size` iteration:
`start + target_size`, moved back to a sentence boundary found within
200 characters when the ideal end falls inside the text. -/
def splitEnd (text : List Char) (targetSize start : Nat) : Nat :=
  let end0 := start + targetSize
  if end0 < text.length then
    match findSentenceBreak text (max start (end0 - 200)) end0 with
    | some i => i + 2
    | none => end0
  else end0

/-- The next scan position of one `_split_by_size` iteration:
`end - overlap`, or `end` when that is not positive. -/
def splitNextStart (text : List Char) (targetSize overlap start : Nat) : Nat :=
  let endF := splitEnd text targetSize start
  if endF ≤ overlap then endF else endF - overlap

/-- The `while start < text_length` loop of `_split_by_size`, with
explicit fuel; `none` means the fuel ran out before the scan position
reached the end of the text. -/
def splitBySizeAux (text : List Char) (targetSize overlap : Nat) :
    Nat → Nat → Option (List String)
  | 0, start => if text.length ≤ start then some [] else none
  | fuel + 1, start =>
      if start < text.length then
        let endF := splitEnd text targetSize start
        let chunk := pyStrip ((text.drop start).take (endF - start))
        match splitBySizeAux text targetSize overlap fuel
            (splitNextStart text targetSize overlap start) with
        | none => none
        | some rest => some (if chunk.isEmpty then rest else String.mk chunk :: rest)
      else some []

/-- Model of `_split_by_size`: divide text by size with overlap.  The fuel
`text.length + 1` suffices whenever the loop makes strict progress
(claimed only under `overlap + 200 < target_size`); on parameter
choices where the Python loop would not terminate the model returns
`[]` when the fuel is exhausted. -/
def _split_by_size (text : String) (target_size overlap : Nat) : List String :=
  (splitBySizeAux text.data target_size overlap (text.data.length + 1) 0).getD []

/-- One output chunk of `chunk_text_by_article_or_size`:
`{text, articulo_ref, ordinal}`. -/
structure Chunk where
  text : String
  articulo_ref : Option String
  ordinal : Nat
  deriving Repr, DecidableEq

/-- Model of `segment.split('\n')[0].strip()`. -/
def firstLineStripped (segment : String) : String :=
  String.mk (pyStrip (segment.data.takeWhile (fun c => c ≠ '\n')))

/-- The body of the `for i, segment in enumerate(articles)` loop of
`chunk_text_by_article_or_size`, on the state
(chunks so far, current chunk, current article ref).  The regex test
`article_pattern.match(segment)` (Python's `re`, an external library)
is the `isHeading` parameter. -/
def chunkFoldStep (isHeading : String → Bool) (targetChars overlapChars : Nat)
    (st : List Chunk × String × Option String) (segment : String) :
    List Chunk × String × Option String :=
  let chunks := st.1
  let cc := st.2.1
  let ref := st.2.2
  if isHeading segment then
    let chunks' := if cc ≠ "" ∧ 100 < cc.length then
        chunks ++ [⟨String.mk (pyStrip cc.data), ref, chunks.length⟩]
      else chunks
    (chunks', segment, some (firstLineStripped segment))
  else
    let cc' := cc ++ segment
    if 3 * targetChars < 2 * cc'.length then
      ((_split_by_size cc' targetChars overlapChars).foldl
          (fun acc sub => acc ++ [⟨String.mk (pyStrip sub.data), ref, acc.length⟩]) chunks,
        "", ref)
    else (chunks, cc', ref)

/-- Model of `chunk_text_by_article_or_size`: split text into chunks, by
article where article headings are recognized, else by size.  The two
uses of Python's `re` module (external library) are the parameters:
`splitArticles` models `article_pattern.split(text)` and `isHeading`
models `article_pattern.match(segment)`; `target_tokens` and
`overlap_tokens` are converted at 4 characters per token, and the
`len(current_chunk) > target_chars * 1.5` test is the exact integer
comparison `2 * len > 3 * target_chars`. -/
def chunk_text_by_article_or_size (splitArticles : String → List String)
    (isHeading : String → Bool) (text : String)
    (target_tokens overlap_tokens : Nat) : List Chunk :=
  if text = "" then []
  else
    let target_chars := target_tokens * 4
    let overlap_chars := overlap_tokens * 4
    let articles := splitArticles text
    if 1 < articles.length then
      let st := articles.foldl (chunkFoldStep isHeading target_chars overlap_chars)
        ([], "", none)
      if st.2.1 ≠ "" ∧ 100 < st.2.1.length then
        st.1 ++ [⟨String.mk (pyStrip st.2.1.data), st.2.2, st.1.length⟩]
      else st.1
    else
      (_split_by_size text target_chars overlap_chars).enum.map
        (fun p => ⟨String.mk (pyStrip p.2.data), none, p.1⟩)

/-- Model of `html_to_text_structured` as a fallible computation: Python
exceptions are `Except.error`.  The BeautifulSoup-based structured
conversion (external library plus the `_process_*` helpers built on
it) is the `structuredConvert` parameter, which may fail; the
`except` branch's naive extraction `soup.get_text(separator=' ')` is
the total `fallbackExtract` parameter.  The result is `Except.ok` on
every path: the `try/except` intercepts any structured-path error. -/
def html_to_text_structured (structuredConvert : String → Except String String)
    (fallbackExtract : String → String) (html : String) : Except String String :=
  if html = "" then Except.ok ""
  else
    match structuredConvert html with
    | Except.ok t => Except.ok t
    | Except.error _ => Except.ok (fallbackExtract html)

/-! ### `utils/embeddings.py` -/

/-- Model of `hash_to_uuid`: format the first 32 hex characters of a content
hash as a UUID string `xxxxxxxx-xxxx-xxxx-xxxx-xxxxxxxxxxxx`
(Python slicing is modelled on the code-point list). -/
def hash_to_uuid (hash_string : String) : String :=
  let u := hash_string.data.take 32
  String.mk (u.take 8) ++ "-" ++ String.mk ((u.drop 8).take 4) ++ "-" ++
    String.mk ((u.drop 12).take 4) ++ "-" ++ String.mk ((u.drop 16).take 4) ++ "-" ++
    String.mk ((u.drop 20).take 12)

/-- Lexicographic strict order on code-point lists: the order in
which the external index compares the stored ISO `YYYY-MM-DD` date
strings (on such strings it agrees with chronological order). -/
def charListLt : List Char → List Char → Bool
  | [], [] => false
  | [], _ :: _ => true
  | _ :: _, [] => false
  | a :: as, b :: bs => if a < b then true else if b < a then false else charListLt as bs

/-- Strict lexicographic order on strings. -/
def strLt (a b : String) : Bool := charListLt a.data b.data

/-- Lexicographic order on strings (total: `a ≤ b ↔ ¬ b < a`). -/
def strLe (a b : String) : Bool := !(strLt b a)

/-- The temporal payload of one point of the historical Qdrant
collection: the effective dates are stored (and compared by the
filter) as ISO `YYYY-MM-DD` strings, whose lexicographic order agrees
with chronological order. -/
structure QdrantPoint where
  vigencia_desde : String
  vigencia_hasta : Option String
  deriving Repr, DecidableEq

/-- The date filter of `search_historico_as_of`, as the code and its
docstring state it: `vigencia_desde <= as_of AND (vigencia_hasta IS
NULL OR vigencia_hasta >= as_of)` — the `must` range condition plus
the two `should` conditions with `min_should_match=1`. -/
def asOfMatches (as_of : String) (p : QdrantPoint) : Bool :=
  strLe p.vigencia_desde as_of &&
    (match p.vigencia_hasta with
     | none => true
     | some hasta => strLe as_of hasta)

/-- The selection `search_historico_as_of` makes among the stored
points (similarity ranking and `limit` aside): those passing the date
filter. -/
def search_historico_as_of (points : List QdrantPoint) (as_of : String) : List QdrantPoint :=
  points.filter (asOfMatches as_of)

/-- Modelled from the spec: the half-open version selection of
`resolve_as_of` (§4.6), `[effective-start, effective-end)` with a
missing effective-end treated as open-ended — the date filter the
claim asserts `search_historico_as_of` implements. -/
def halfOpenMatches (as_of : String) (p : QdrantPoint) : Bool :=
  strLe p.vigencia_desde as_of &&
    (match p.vigencia_hasta with
     | none => true
     | some hasta => strLt as_of hasta)

/-! ### `boe_sync_consolidada.py` — `sync_indices` (change detection) -/

/-- One row of the `boe_bloque` table. -/
structure BloqueRow where
  id_norma : String
  id_bloque : String
  tipo : Option String
  titulo_bloque : Option String
  fecha_actualizacion_bloque : Option String
  url_bloque : Option String
  deriving Repr, DecidableEq

/-- One block of a fetched index (`indice['bloques']` entry). -/
structure BloqueFetch where
  id_bloque : String
  tipo : Option String
  titulo_bloque : Option String
  fecha_actualizacion_bloque : Option String
  url_bloque : Option String
  deriving Repr, DecidableEq

/-- The `SELECT fecha_actualizacion_bloque FROM boe_bloque WHERE
id_norma = %s AND id_bloque = %s` lookup ((id_norma, id_bloque) is
the table's key, so the first matching row is the row). -/
def lookupBloque (rows : List BloqueRow) (idn idb : String) : Option BloqueRow :=
  rows.find? (fun r => r.id_norma == idn && r.id_bloque == idb)

/-- The `INSERT ... ON CONFLICT (id_norma, id_bloque) DO UPDATE`
marker upsert: replace the keyed row if present, else append. -/
def upsertBloque (rows : List BloqueRow) (nr : BloqueRow) : List BloqueRow :=
  if rows.any (fun r => r.id_norma == nr.id_norma && r.id_bloque == nr.id_bloque) then
    rows.map (fun r =>
      if r.id_norma == nr.id_norma && r.id_bloque == nr.id_bloque then nr else r)
  else rows ++ [nr]

/-- The per-block body of the `sync_indices` loop: read the stored
marker, judge dirtiness, always upsert the freshly fetched block
row; returns the dirty flag and the updated table. -/
def syncIndicesStep (rows : List BloqueRow) (id_norma : String) (blk : BloqueFetch) :
    Bool × List BloqueRow :=
  let row := lookupBloque rows id_norma blk.id_bloque
  let is_dirty := match row with
    | none => true
    | some r => decide (r.fecha_actualizacion_bloque ≠ blk.fecha_actualizacion_bloque)
  let rows' := upsertBloque rows
    ⟨id_norma, blk.id_bloque, blk.tipo, blk.titulo_bloque,
     blk.fecha_actualizacion_bloque, blk.url_bloque⟩
  (is_dirty, rows')

/-! ### `boe_sync_consolidada.py` — `sync_bloques_batch` (version ledger) -/

/-- One row of the `boe_version` table. -/
structure VersionRow where
  id_version : String
  id_norma : String
  id_bloque : String
  id_norma_modificadora : Option String
  fecha_publicacion_mod : Option String
  fecha_vigencia_desde : Option PyDate
  vigencia_hasta : Option PyDate
  hash_html : String
  hash_texto : String
  deriving Repr, DecidableEq

/-- One row of the `boe_fragmento` table. -/
structure FragmentoRow where
  id_fragmento : String
  id_version : String
  ordinal : Nat
  texto_normalizado : String
  hash_texto : String
  articulo_ref : Option String
  deriving Repr, DecidableEq

/-- One row of the `pending_embeddings` queue table. -/
structure PendingRow where
  id_fragmento : String
  status : String
  deriving Repr, DecidableEq

/-- The ledger: the three tables the insert path of
`sync_bloques_batch` writes. -/
structure LedgerState where
  versions : List VersionRow
  fragmentos : List FragmentoRow
  pendings : List PendingRow
  deriving Repr, DecidableEq

/-- Model of `check_version_exists`: `SELECT id_version FROM boe_version WHERE
id_version = %s` is non-empty. -/
def check_version_exists (s : LedgerState) (id_version : String) : Bool :=
  s.versions.any (fun r => r.id_version == id_version)

/-- Model of `check_fragmento_exists`: `SELECT id_fragmento FROM boe_fragmento
WHERE id_fragmento = %s` is non-empty. -/
def check_fragmento_exists (s : LedgerState) (id_fragmento : String) : Bool :=
  s.fragmentos.any (fun r => r.id_fragmento == id_fragmento)

/-- The version `INSERT ... ON CONFLICT (id_version) DO UPDATE SET
id_norma_modificadora, fecha_publicacion_mod, vigencia_hasta,
hash_html, hash_texto`: on conflict only those five columns are
overwritten from the excluded row. -/
def upsertVersion (s : LedgerState) (vr : VersionRow) : LedgerState :=
  if s.versions.any (fun r => r.id_version == vr.id_version) then
    { s with versions := s.versions.map (fun r =>
        if r.id_version == vr.id_version then
          { r with id_norma_modificadora := vr.id_norma_modificadora,
                   fecha_publicacion_mod := vr.fecha_publicacion_mod,
                   vigencia_hasta := vr.vigencia_hasta,
                   hash_html := vr.hash_html,
                   hash_texto := vr.hash_texto }
        else r) }
  else { s with versions := s.versions ++ [vr] }

/-- The fragment `INSERT ... ON CONFLICT (id_fragmento) DO NOTHING`. -/
def insertFragmento (s : LedgerState) (fr : FragmentoRow) : LedgerState :=
  if s.fragmentos.any (fun r => r.id_fragmento == fr.id_fragmento) then s
  else { s with fragmentos := s.fragmentos ++ [fr] }

/-- The queue `INSERT INTO pending_embeddings (id_fragmento, status)
VALUES (%s, 'pending') ON CONFLICT (id_fragmento) DO NOTHING`. -/
def insertPending (s : LedgerState) (id_fragmento : String) : LedgerState :=
  if s.pendings.any (fun r => r.id_fragmento == id_fragmento) then s
  else { s with pendings := s.pendings ++ [⟨id_fragmento, "pending"⟩] }

/-- One version of a fetched block (`bloque_data['versiones']`
entry). -/
structure VersionPayload where
  html : String
  fecha_vigencia_desde : Option PyDate
  id_norma_modificadora : Option String
  fecha_publicacion_mod : Option String
  deriving Repr, DecidableEq

/-- The body of the `for chunk_data in chunks` loop of
`sync_bloques_batch`: hash the chunk, compute the deterministic
fragment ID, and unless the fragment already exists insert the
fragment row and its pending-embedding marker. -/
def fragStep (id_version : String) (acc : LedgerState) (ch : Chunk) : LedgerState :=
  let chunk_hash := calculate_hash (some ch.text)
  let id_fragmento := generate_id_fragmento id_version ch.ordinal chunk_hash
  if check_fragmento_exists acc id_fragmento then acc
  else insertPending
    (insertFragmento acc ⟨id_fragmento, id_version, ch.ordinal, ch.text, chunk_hash,
      ch.articulo_ref⟩) id_fragmento

/-- The per-version body of the `sync_bloques_batch` loop: skip empty
markup, hash, compute the deterministic version ID, skip when the
version already exists, else insert the version row (with
`vigencia_hasta = None`) and run the fragment loop.  The
normalization (`html_to_text_structured`) and chunking
(`chunk_text_by_article_or_size`) calls are the `normalize` and
`chunkf` parameters (any pure functions, covering the concrete ones
defined above). -/
def processVersionBody (normalize : String → String) (chunkf : String → List Chunk)
    (id_norma id_bloque : String) (s : LedgerState) (v : VersionPayload) : LedgerState :=
  if v.html = "" then s
  else
    let hash_html := calculate_hash (some v.html)
    let texto_normalizado := normalize v.html
    let hash_texto := calculate_hash (some texto_normalizado)
    let id_version := generate_id_version id_norma id_bloque v.fecha_vigencia_desde
      v.id_norma_modificadora hash_html
    if check_version_exists s id_version then s
    else
      let s1 := upsertVersion s
        ⟨id_version, id_norma, id_bloque, v.id_norma_modificadora,
         v.fecha_publicacion_mod, v.fecha_vigencia_desde, none, hash_html, hash_texto⟩
      (chunkf texto_normalizado).foldl (fragStep id_version) s1

/-- The `for version in versiones` loop of `sync_bloques_batch` for
one block: fold the per-version body over the fetched versions. -/
def syncBloqueVersiones (normalize : String → String) (chunkf : String → List Chunk)
    (id_norma id_bloque : String) (s : LedgerState) (vs : List VersionPayload) :
    LedgerState :=
  vs.foldl (processVersionBody normalize chunkf id_norma id_bloque) s

/-- Key lists whose distinctness expresses "exactly one row per
deterministic identity". -/
def ledgerWf (s : LedgerState) : Prop :=
  (s.versions.map VersionRow.id_version).Nodup ∧
  (s.fragmentos.map FragmentoRow.id_fragmento).Nodup ∧
  (s.pendings.map PendingRow.id_fragmento).Nodup

instance (s : LedgerState) : Decidable (ledgerWf s) := by
  unfold ledgerWf; infer_instance

/-! ## Helper lemmas -/

/-- Looking up the upserted key always finds the freshly written
row. -/
theorem lookup_upsertBloque (rows : List BloqueRow) (nr : BloqueRow) :
    lookupBloque (upsertBloque rows nr) nr.id_norma nr.id_bloque = some nr := by
  unfold upsertBloque
  by_cases hany :
      (rows.any fun r => r.id_norma == nr.id_norma && r.id_bloque == nr.id_bloque) = true
  · rw [if_pos hany]
    induction rows with
    | nil => simp at hany
    | cons r rs ih =>
      by_cases hr : (r.id_norma == nr.id_norma && r.id_bloque == nr.id_bloque) = true
      · simp [lookupBloque, List.find?, hr]
      · have hrs : (rs.any fun r => r.id_norma == nr.id_norma && r.id_bloque == nr.id_bloque)
            = true := by
          simp only [List.any_cons, hr, Bool.false_or] at hany
          exact hany
        simpa [lookupBloque, List.find?, hr] using ih hrs
  · rw [if_neg hany]
    induction rows with
    | nil => simp [lookupBloque, List.find?]
    | cons r rs ih =>
      have hr : (r.id_norma == nr.id_norma && r.id_bloque == nr.id_bloque) = false := by
        by_contra hc
        simp only [Bool.not_eq_false] at hc
        exact hany (by simp [List.any_cons, hc])
      have hrs : ¬ (rs.any fun r => r.id_norma == nr.id_norma && r.id_bloque == nr.id_bloque)
          = true := by
        intro hc
        exact hany (by simp [List.any_cons, hc])
      simpa [lookupBloque, List.find?, hr] using ih hrs

/-- Python's `s or ''` is the identity on strings. -/
theorem orEmptyStr_eq (s : String) : orEmptyStr s = s := by
  by_cases h : s = "" <;> simp [orEmptyStr, h]

/-- The helper `orEmptyOpt` is `Option.getD ""`. -/
theorem orEmptyOpt_eq_getD (o : Option String) : orEmptyOpt o = o.getD "" := by
  cases o with
  | none => rfl
  | some s => by_cases h : s = "" <;> simp [orEmptyOpt, h]

/-- The digest renders as exactly 64 characters. -/
theorem digestChars_length (st : H8) : (digestChars st).length = 64 := by
  simp [digestChars, hexWord]

/-- Hex digits of nibbles are lowercase hex characters. -/
theorem hexDigit_mem_hexChars (n : Nat) : hexDigit (n % 16) ∈ hexChars := by
  have h : n % 16 < 16 := Nat.mod_lt _ (by norm_num)
  set m := n % 16 with hm
  clear_value m
  interval_cases m <;> decide

/-- Every character of a rendered word is a lowercase hex
character. -/
theorem mem_hexWord_hexChars {c : Char} {w : Nat} (hc : c ∈ hexWord w) : c ∈ hexChars := by
  simp only [hexWord, List.mem_cons, List.not_mem_nil, or_false] at hc
  rcases hc with rfl | rfl | rfl | rfl | rfl | rfl | rfl | rfl <;> exact hexDigit_mem_hexChars _

/-- Every character of a digest is a lowercase hex character. -/
theorem mem_digestChars_hexChars {c : Char} {st : H8} (hc : c ∈ digestChars st) :
    c ∈ hexChars := by
  simp only [digestChars, List.mem_append] at hc
  rcases hc with ((((((h | h) | h) | h) | h) | h) | h) | h <;> exact mem_hexWord_hexChars h

/-- All `sha256Hex` digests have 64 characters. -/
theorem sha256Hex_length (msg : List Nat) : (sha256Hex msg).length = 64 := by
  show (digestChars _).length = 64
  exact digestChars_length _

/-- All `sha256Hex` digests consist of lowercase hex characters. -/
theorem sha256Hex_hex (msg : List Nat) :
    ((sha256Hex msg).data.all fun c => decide (c ∈ hexChars)) = true := by
  rw [List.all_eq_true]
  intro c hc
  exact decide_eq_true (mem_digestChars_hexChars hc)

/-- Characters of a digit rendered by `decDigit` decode back to the
digit. -/
theorem charVal_decDigit (k : Nat) : charVal (decDigit k) = k % 10 := by
  have hk : k % 10 < 10 := Nat.mod_lt _ (by norm_num)
  unfold decDigit
  set m := k % 10 with hm
  clear_value m
  interval_cases m <;> decide

/-- The digit `decDigit` determines its argument modulo 10. -/
theorem decDigit_inj_mod {u v : Nat} (h : decDigit u = decDigit v) : u % 10 = v % 10 := by
  have := congrArg charVal h
  rwa [charVal_decDigit, charVal_decDigit] at this

/-- Appending one digit multiplies the decoded value by ten. -/
theorem decVal_append_digit (l : List Char) (c : Char) :
    decVal (l ++ [c]) = decVal l * 10 + charVal c := by
  unfold decVal
  rw [List.foldl_append]
  rfl

/-- With sufficient fuel, decoding inverts the decimal rendering. -/
theorem decVal_decDigitsCore : ∀ fuel n, n ≤ fuel → decVal (decDigitsCore fuel n) = n := by
  intro fuel
  induction fuel with
  | zero =>
      intro n hn
      have : n = 0 := Nat.le_zero.mp hn
      subst this
      decide
  | succ f ih =>
      intro n hn
      unfold decDigitsCore
      by_cases h10 : n < 10
      · rw [if_pos h10]
        show 0 * 10 + charVal (decDigit n) = n
        rw [charVal_decDigit]
        omega
      · rw [if_neg h10]
        rw [decVal_append_digit, ih (n / 10) (by omega), charVal_decDigit]
        omega

/-- Decoding inverts `decDigits`. -/
theorem decVal_decDigits (n : Nat) : decVal (decDigits n) = n :=
  decVal_decDigitsCore n n le_rfl

/-- Python's decimal rendering of a natural number is injective. -/
theorem pyStr_inj {n m : Nat} (h : pyStr n = pyStr m) : n = m := by
  have hd : decDigits n = decDigits m := congrArg String.data h
  have := congrArg decVal hd
  rwa [decVal_decDigits, decVal_decDigits] at this

/-- The character-list form of the version pre-image string. -/
theorem serializeVersion_data (a b : String) (c : Option PyDate) (d : Option String)
    (e : String) :
    (serializeVersion a b c d e).data =
      a.data ++ '|' :: (b.data ++ '|' :: ((optIso c).data ++ '|' ::
        ((d.getD "").data ++ '|' :: e.data))) := by
  unfold serializeVersion
  rw [orEmptyStr_eq, orEmptyStr_eq, orEmptyStr_eq, orEmptyOpt_eq_getD]
  simp [pipeJoin, String.data_append]

/-- The character-list form of the fragment pre-image string. -/
theorem serializeFragmento_data (v : String) (o : Nat) (h : String) :
    (serializeFragmento v o h).data =
      v.data ++ '|' :: ((pyStr o).data ++ '|' :: h.data) := by
  unfold serializeFragmento
  rw [orEmptyStr_eq, orEmptyStr_eq]
  simp [pipeJoin, String.data_append]

/-- The rendering `isoformat` is injective on dates within `datetime.date` ranges. -/
theorem isoformat_inj {d d' : PyDate} (hd : d.Valid) (hd' : d'.Valid)
    (h : isoformat d = isoformat d') : d = d' := by
  obtain ⟨hy1, hy2, hm1, hm2, hd1, hd2⟩ := hd
  obtain ⟨hy1', hy2', hm1', hm2', hd1', hd2'⟩ := hd'
  have hl : pad4 d.year ++ '-' :: pad2 d.month ++ '-' :: pad2 d.day =
      pad4 d'.year ++ '-' :: pad2 d'.month ++ '-' :: pad2 d'.day :=
    congrArg String.data h
  simp only [pad4, pad2, List.cons_append, List.nil_append, List.cons.injEq,
    and_true, true_and] at hl
  obtain ⟨e1, e2, e3, e4, e5, e6, e7, e8⟩ := hl
  have q1 := decDigit_inj_mod e1
  have q2 := decDigit_inj_mod e2
  have q3 := decDigit_inj_mod e3
  have q4 := decDigit_inj_mod e4
  have q5 := decDigit_inj_mod e5
  have q6 := decDigit_inj_mod e6
  have q7 := decDigit_inj_mod e7
  have q8 := decDigit_inj_mod e8
  cases d
  cases d'
  simp_all only [PyDate.mk.injEq]
  omega

/-- The rendering `isoformat` always produces ten characters. -/
theorem isoformat_length (d : PyDate) : (isoformat d).length = 10 := by
  simp [isoformat, pad4, pad2]

/-- The optional ISO rendering is injective on valid dates. -/
theorem optIso_inj {c c' : Option PyDate} (hc : ∀ x, c = some x → x.Valid)
    (hc' : ∀ x, c' = some x → x.Valid) (h : optIso c = optIso c') : c = c' := by
  cases c with
  | none =>
      cases c' with
      | none => rfl
      | some d' =>
          exfalso
          have hl := congrArg String.length h
          simp only [optIso] at hl
          rw [isoformat_length] at hl
          simp at hl
  | some d =>
      cases c' with
      | none =>
          exfalso
          have hl := congrArg String.length h
          simp only [optIso] at hl
          rw [isoformat_length] at hl
          simp at hl
      | some d' =>
          have heq : isoformat d = isoformat d' := h
          rw [isoformat_inj (hc d rfl) (hc' d' rfl) heq]

/-! ## Claims -/

/-- C9: `hash_to_uuid` depends only on the first 32 characters of its
input, so two distinct 64-character content hashes agreeing on their
first 32 hex characters (first 128 bits) map to the same vector-index
point ID — the point ID is not injective over full hashes. -/
theorem hash_to_uuid_first32 :
    (∀ h1 h2 : String, h1.data.take 32 = h2.data.take 32 →
      hash_to_uuid h1 = hash_to_uuid h2) ∧
    (∃ h1 h2 : String, h1 ≠ h2 ∧ h1.length = 64 ∧ h2.length = 64 ∧
      hash_to_uuid h1 = hash_to_uuid h2) := by
  constructor
  · intro h1 h2 hEq
    unfold hash_to_uuid
    rw [hEq]
  · refine ⟨"aaaaaaaaaaaaaaaaaaaaaaaaaaaaaaaaaaaaaaaaaaaaaaaaaaaaaaaaaaaaaaaa",
      "aaaaaaaaaaaaaaaaaaaaaaaaaaaaaaaabbbbbbbbbbbbbbbbbbbbbbbbbbbbbbbb",
      by decide, by decide, by decide, by decide⟩

/-- Witness for C9 at two concrete hashes agreeing on their first 32
characters. -/
theorem hash_to_uuid_first32_witness :
    hash_to_uuid "aaaaaaaaaaaaaaaaaaaaaaaaaaaaaaaa00000000000000000000000000000000" =
      hash_to_uuid "aaaaaaaaaaaaaaaaaaaaaaaaaaaaaaaa11111111111111111111111111111111" :=
  hash_to_uuid_first32.1 _ _ (by decide)

/-- C5: `html_to_text_structured` yields `Except.ok` (a string, never
a propagated exception) for every input and every behavior of the
structured conversion path: empty input short-circuits to `""`, a
successful structured conversion is returned as is, and any failure
of the structured path falls back to the naive extraction. -/
theorem html_to_text_structured_never_raises :
    ∀ (sc : String → Except String String) (fb : String → String) (html : String),
      (∀ e, html_to_text_structured sc fb html ≠ Except.error e) ∧
      (html = "" → html_to_text_structured sc fb html = Except.ok "") ∧
      (∀ t, html ≠ "" → sc html = Except.ok t →
        html_to_text_structured sc fb html = Except.ok t) ∧
      (∀ e, html ≠ "" → sc html = Except.error e →
        html_to_text_structured sc fb html = Except.ok (fb html)) := by
  intro sc fb html
  unfold html_to_text_structured
  by_cases h : html = ""
  · simp [h]
  · cases hsc : sc html <;> simp [h, hsc]

/-- Witness for C5: a structured path that always fails is caught and
replaced by the fallback extraction on a concrete input. -/
theorem html_to_text_structured_never_raises_witness :
    html_to_text_structured (fun _ => Except.error "parse failure") (fun s => s) "<p>x" =
      Except.ok "<p>x" :=
  (html_to_text_structured_never_raises (fun _ => Except.error "parse failure")
    (fun s => s) "<p>x").2.2.2 "parse failure" (by decide) rfl

/-- C4: one `sync_indices` block is dirty exactly when no stored row
exists for its (instrument, block) key or the stored marker differs
from the freshly fetched one; and the marker upsert is performed
regardless, so the lookup after the step returns the fresh row. -/
theorem sync_indices_dirty_iff_and_upsert :
    ∀ (rows : List BloqueRow) (id_norma : String) (blk : BloqueFetch),
      ((syncIndicesStep rows id_norma blk).1 = true ↔
        lookupBloque rows id_norma blk.id_bloque = none ∨
        ∃ r, lookupBloque rows id_norma blk.id_bloque = some r ∧
          r.fecha_actualizacion_bloque ≠ blk.fecha_actualizacion_bloque) ∧
      lookupBloque (syncIndicesStep rows id_norma blk).2 id_norma blk.id_bloque =
        some ⟨id_norma, blk.id_bloque, blk.tipo, blk.titulo_bloque,
          blk.fecha_actualizacion_bloque, blk.url_bloque⟩ := by
  intro rows id_norma blk
  constructor
  · unfold syncIndicesStep
    cases hlk : lookupBloque rows id_norma blk.id_bloque with
    | none => simp [hlk]
    | some r => simp [hlk]
  · exact lookup_upsertBloque rows
      ⟨id_norma, blk.id_bloque, blk.tipo, blk.titulo_bloque,
        blk.fecha_actualizacion_bloque, blk.url_bloque⟩

/-- C1 counterexample: on a block with versions
[2024-01-01, 2024-06-01) and [2024-06-01, ∞), the date filter of
`search_historico_as_of` at 2024-06-01 selects both versions — the
date equal to the first version's effective-end still matches it
(`vigencia_hasta >= as_of` is inclusive), although its half-open
interval does not contain the date. -/
theorem search_historico_as_of_endpoint_counterexample :
    search_historico_as_of
        [⟨"2024-01-01", some "2024-06-01"⟩, ⟨"2024-06-01", none⟩] "2024-06-01" =
      [⟨"2024-01-01", some "2024-06-01"⟩, ⟨"2024-06-01", none⟩] ∧
    halfOpenMatches "2024-06-01" ⟨"2024-01-01", some "2024-06-01"⟩ = false := by
  constructor <;> decide

/-- C1 amended: the date filter of `search_historico_as_of` selects
exactly the versions whose closed interval [effective-start,
effective-end] contains the query date, a null effective-end being
open-ended; a date equal to one version's effective-end and its
successor's effective-start therefore selects both, and a date
strictly before every version's effective-start selects no
version. -/
theorem search_historico_as_of_closed_interval :
    ∀ (points : List QdrantPoint) (as_of : String),
      (∀ p, p ∈ search_historico_as_of points as_of ↔
        p ∈ points ∧ strLe p.vigencia_desde as_of = true ∧
          ∀ h, p.vigencia_hasta = some h → strLe as_of h = true) ∧
      ((∀ p ∈ points, strLt as_of p.vigencia_desde = true) →
        search_historico_as_of points as_of = []) := by
  intro points as_of
  constructor
  · intro p
    unfold search_historico_as_of
    rw [List.mem_filter]
    unfold asOfMatches
    cases hv : p.vigencia_hasta with
    | none => simp [hv]
    | some hx => simp [hv]
  · intro hall
    unfold search_historico_as_of
    rw [List.filter_eq_nil_iff]
    intro p hp
    unfold asOfMatches
    have hlt := hall p hp
    have : strLe p.vigencia_desde as_of = false := by
      unfold strLe
      rw [hlt]
      rfl
    simp [this]

/-- Witness for C1 (amended) on the spec's example block: 2023-12-31
precedes both effective-start dates, so the filter selects nothing. -/
theorem search_historico_as_of_closed_interval_witness :
    (∀ p ∈ [(⟨"2024-01-01", some "2024-06-01"⟩ : QdrantPoint), ⟨"2024-06-01", none⟩],
        strLt "2023-12-31" p.vigencia_desde = true) ∧
    search_historico_as_of
        [⟨"2024-01-01", some "2024-06-01"⟩, ⟨"2024-06-01", none⟩] "2023-12-31" = [] :=
  ⟨by decide, (search_historico_as_of_closed_interval
      [⟨"2024-01-01", some "2024-06-01"⟩, ⟨"2024-06-01", none⟩] "2023-12-31").2 (by decide)⟩

/-- C7: `generate_id_version` is the SHA-256 lowercase hex digest of
the pipe-joined component list (instrument ID, block ID, ISO
effective-start, amending-instrument ID, raw-markup hash) with the
empty string substituted for every null component, in that fixed
order; and `calculate_hash` always returns a 64-character lowercase
hex digest. -/
theorem version_id_and_hash_contract :
    (∀ (id_norma id_bloque : String) (fecha : Option PyDate)
        (modificadora : Option String) (hash_html : String),
      generate_id_version id_norma id_bloque fecha modificadora hash_html =
        version_id_spec id_norma id_bloque fecha modificadora hash_html) ∧
    (∀ content : Option String, (calculate_hash content).length = 64 ∧
      ((calculate_hash content).data.all fun c => decide (c ∈ hexChars)) = true) := by
  constructor
  · intro a b c d e
    unfold generate_id_version version_id_spec serializeVersion
    rw [orEmptyStr_eq, orEmptyStr_eq, orEmptyStr_eq, orEmptyOpt_eq_getD]
    simp [pipeJoin, String.append_assoc]
  · intro content
    exact ⟨sha256Hex_length _, sha256Hex_hex _⟩

/-- C3 counterexample: changing the amending-instrument component
from null to the empty string — a change of one component of the
argument tuple — leaves the digest unchanged, because both serialize
to the empty string. -/
theorem generate_id_version_null_empty_counterexample :
    generate_id_version "BOE-A-2000-1" "a1" none none "deadbeef" =
      generate_id_version "BOE-A-2000-1" "a1" none (some "") "deadbeef" ∧
    (none : Option String) ≠ some "" := by
  exact ⟨rfl, by decide⟩

/-- C3 amended: `generate_id_version` and `generate_id_fragmento` are
pure and deterministic (identical arguments give identical digests),
and changing any one component of the argument tuple while holding
the others fixed changes the pipe-joined pre-image string the digest
is computed from (hence the digest itself except on a SHA-256
collision), with two provisos forced by the representation: the
nullable amending-instrument component distinguishes values only up
to the null/empty-string identification of `x or ''`, and the
effective-start dates must lie within `datetime.date` ranges. -/
theorem id_generators_deterministic_and_sensitive :
    (∀ (a b : String) (c : Option PyDate) (d : Option String) (e : String),
      generate_id_version a b c d e = generate_id_version a b c d e) ∧
    (∀ (v : String) (o : Nat) (h : String),
      generate_id_fragmento v o h = generate_id_fragmento v o h) ∧
    (∀ (a a' b : String) (c : Option PyDate) (d : Option String) (e : String), a ≠ a' →
      serializeVersion a b c d e ≠ serializeVersion a' b c d e) ∧
    (∀ (a b b' : String) (c : Option PyDate) (d : Option String) (e : String), b ≠ b' →
      serializeVersion a b c d e ≠ serializeVersion a b' c d e) ∧
    (∀ (a b : String) (c c' : Option PyDate) (d : Option String) (e : String),
      (∀ x, c = some x → x.Valid) → (∀ x, c' = some x → x.Valid) → c ≠ c' →
      serializeVersion a b c d e ≠ serializeVersion a b c' d e) ∧
    (∀ (a b : String) (c : Option PyDate) (d d' : Option String) (e : String),
      orEmptyOpt d ≠ orEmptyOpt d' →
      serializeVersion a b c d e ≠ serializeVersion a b c d' e) ∧
    (∀ (a b : String) (c : Option PyDate) (d : Option String) (e e' : String), e ≠ e' →
      serializeVersion a b c d e ≠ serializeVersion a b c d e') ∧
    (∀ (v v' : String) (o : Nat) (h : String), v ≠ v' →
      serializeFragmento v o h ≠ serializeFragmento v' o h) ∧
    (∀ (v : String) (o o' : Nat) (h : String), o ≠ o' →
      serializeFragmento v o h ≠ serializeFragmento v o' h) ∧
    (∀ (v : String) (o : Nat) (h h' : String), h ≠ h' →
      serializeFragmento v o h ≠ serializeFragmento v o h') := by
  refine ⟨fun _ _ _ _ _ => rfl, fun _ _ _ => rfl, ?_, ?_, ?_, ?_, ?_, ?_, ?_, ?_⟩
  · intro a a' b c d e hne heq
    apply hne
    have hd := congrArg String.data heq
    rw [serializeVersion_data, serializeVersion_data] at hd
    exact String.ext (List.append_cancel_right hd)
  · intro a b b' c d e hne heq
    apply hne
    have hd := congrArg String.data heq
    rw [serializeVersion_data, serializeVersion_data] at hd
    have h1 := List.append_cancel_left hd
    rw [List.cons.injEq] at h1
    exact String.ext (List.append_cancel_right h1.2)
  · intro a b c c' d e hv hv' hne heq
    apply hne
    have hd := congrArg String.data heq
    rw [serializeVersion_data, serializeVersion_data] at hd
    have h1 := List.append_cancel_left hd
    rw [List.cons.injEq] at h1
    have h2 := List.append_cancel_left h1.2
    rw [List.cons.injEq] at h2
    exact optIso_inj hv hv' (String.ext (List.append_cancel_right h2.2))
  · intro a b c d d' e hne heq
    apply hne
    have hd := congrArg String.data heq
    rw [serializeVersion_data, serializeVersion_data] at hd
    have h1 := List.append_cancel_left hd
    rw [List.cons.injEq] at h1
    have h2 := List.append_cancel_left h1.2
    rw [List.cons.injEq] at h2
    have h3 := List.append_cancel_left h2.2
    rw [List.cons.injEq] at h3
    rw [orEmptyOpt_eq_getD, orEmptyOpt_eq_getD]
    exact String.ext (List.append_cancel_right h3.2)
  · intro a b c d e e' hne heq
    apply hne
    have hd := congrArg String.data heq
    rw [serializeVersion_data, serializeVersion_data] at hd
    have h1 := List.append_cancel_left hd
    rw [List.cons.injEq] at h1
    have h2 := List.append_cancel_left h1.2
    rw [List.cons.injEq] at h2
    have h3 := List.append_cancel_left h2.2
    rw [List.cons.injEq] at h3
    have h4 := List.append_cancel_left h3.2
    rw [List.cons.injEq] at h4
    exact String.ext h4.2
  · intro v v' o h hne heq
    apply hne
    have hd := congrArg String.data heq
    rw [serializeFragmento_data, serializeFragmento_data] at hd
    exact String.ext (List.append_cancel_right hd)
  · intro v o o' h hne heq
    apply hne
    have hd := congrArg String.data heq
    rw [serializeFragmento_data, serializeFragmento_data] at hd
    have h1 := List.append_cancel_left hd
    rw [List.cons.injEq] at h1
    exact pyStr_inj (String.ext (List.append_cancel_right h1.2))
  · intro v o h h' hne heq
    apply hne
    have hd := congrArg String.data heq
    rw [serializeFragmento_data, serializeFragmento_data] at hd
    have h1 := List.append_cancel_left hd
    rw [List.cons.injEq] at h1
    have h2 := List.append_cancel_left h1.2
    rw [List.cons.injEq] at h2
    exact String.ext h2.2

/-- Witness for C3 (amended): concrete single-component changes
produce different pre-image strings; concrete identical calls give
identical digests. -/
theorem id_generators_sensitive_witness :
    generate_id_fragmento "v" 0 "h" = generate_id_fragmento "v" 0 "h" ∧
    serializeVersion "n" "b" (some ⟨2024, 1, 1⟩) none "h" ≠
      serializeVersion "n" "b" (some ⟨2024, 6, 1⟩) none "h" ∧
    serializeFragmento "v" 0 "h" ≠ serializeFragmento "v" 1 "h" ∧
    serializeVersion "n" "b" none (some "m1") "h" ≠
      serializeVersion "n" "b" none (some "m2") "h" :=
  ⟨id_generators_deterministic_and_sensitive.2.1 "v" 0 "h",
   id_generators_deterministic_and_sensitive.2.2.2.2.1 "n" "b"
     (some ⟨2024, 1, 1⟩) (some ⟨2024, 6, 1⟩) none "h"
     (by intro x hx; rw [Option.some.injEq] at hx; subst hx; decide)
     (by intro x hx; rw [Option.some.injEq] at hx; subst hx; decide)
     (by decide),
   id_generators_deterministic_and_sensitive.2.2.2.2.2.2.2.2.1 "v" 0 1 "h" (by decide),
   id_generators_deterministic_and_sensitive.2.2.2.2.2.1 "n" "b" none
     (some "m1") (some "m2") "h" (by decide)⟩

/-- The dense-ordinal invariant: the ordinals of the accumulated
chunks are exactly their positions. -/
def ordinalsDense (chunks : List Chunk) : Prop :=
  chunks.map Chunk.ordinal = List.range chunks.length

/-- Appending a chunk whose ordinal is the current length preserves
density. -/
theorem ordinalsDense_append {chunks : List Chunk} (t : String) (r : Option String)
    (h : ordinalsDense chunks) : ordinalsDense (chunks ++ [⟨t, r, chunks.length⟩]) := by
  unfold ordinalsDense at h ⊢
  simp [List.range_succ, h]

/-- The sub-chunk flush loop preserves density. -/
theorem ordinalsDense_subFold (subs : List String) (r : Option String) :
    ∀ chunks : List Chunk, ordinalsDense chunks →
      ordinalsDense (subs.foldl
        (fun acc sub => acc ++ [⟨String.mk (pyStrip sub.data), r, acc.length⟩]) chunks) := by
  induction subs with
  | nil => intro chunks h; exact h
  | cons sub rest ih =>
      intro chunks h
      exact ih _ (ordinalsDense_append _ _ h)

/-- Each step of the article-segment loop preserves density. -/
theorem ordinalsDense_chunkFoldStep (isHeading : String → Bool) (tc oc : Nat)
    (st : List Chunk × String × Option String) (segment : String)
    (h : ordinalsDense st.1) :
    ordinalsDense (chunkFoldStep isHeading tc oc st segment).1 := by
  unfold chunkFoldStep
  dsimp only
  split
  · split
    · exact ordinalsDense_append _ _ h
    · exact h
  · split
    · exact ordinalsDense_subFold _ _ _ h
    · exact h

/-- The whole article-segment fold preserves density. -/
theorem ordinalsDense_fold (isHeading : String → Bool) (tc oc : Nat) :
    ∀ (segs : List String) (st : List Chunk × String × Option String),
      ordinalsDense st.1 →
      ordinalsDense (segs.foldl (chunkFoldStep isHeading tc oc) st).1 := by
  intro segs
  induction segs with
  | nil => intro st h; exact h
  | cons seg rest ih =>
      intro st h
      exact ih _ (ordinalsDense_chunkFoldStep isHeading tc oc st seg h)

/-- C6: for every input text, every parameter choice and every
behavior of the regular-expression splitter, the ordinals of the
chunk list returned by `chunk_text_by_article_or_size` are exactly
`[0, 1, ..., n-1]` in list order, and the function is a pure function,
so identical input gives the identical chunk list. -/
theorem chunk_ordinals_dense_and_deterministic :
    ∀ (splitArticles : String → List String) (isHeading : String → Bool)
      (text : String) (target_tokens overlap_tokens : Nat),
      (chunk_text_by_article_or_size splitArticles isHeading text
          target_tokens overlap_tokens).map Chunk.ordinal =
        List.range (chunk_text_by_article_or_size splitArticles isHeading text
          target_tokens overlap_tokens).length ∧
      chunk_text_by_article_or_size splitArticles isHeading text
          target_tokens overlap_tokens =
        chunk_text_by_article_or_size splitArticles isHeading text
          target_tokens overlap_tokens := by
  intro sa ih text tt ot
  refine ⟨?_, rfl⟩
  show ordinalsDense (chunk_text_by_article_or_size sa ih text tt ot)
  unfold chunk_text_by_article_or_size
  by_cases he : text = ""
  · simp only [he, if_true]
    rfl
  · simp only [he, if_false]
    by_cases hn : 1 < (sa text).length
    · simp only [hn, if_true]
      have hbase : ordinalsDense ([] : List Chunk) := rfl
      have hfold := ordinalsDense_fold ih (tt * 4) (ot * 4) (sa text) ([], "", none) hbase
      by_cases hc : ((sa text).foldl (chunkFoldStep ih (tt * 4) (ot * 4))
          ([], "", none)).2.1 ≠ "" ∧
          100 < ((sa text).foldl (chunkFoldStep ih (tt * 4) (ot * 4)) ([], "", none)).2.1.length
      · simpa [hc] using ordinalsDense_append _ _ hfold
      · simpa [hc] using hfold
    · simp only [hn, if_false]
      unfold ordinalsDense
      rw [List.map_map, List.length_map, List.enum_length]
      have : (Chunk.ordinal ∘ fun p : Nat × String =>
          (⟨String.mk (pyStrip p.2.data), none, p.1⟩ : Chunk)) = Prod.fst := rfl
      rw [this, List.enum_map_fst]

/-- The fragment insert leaves the version table unchanged. -/
theorem insertFragmento_versions (s : LedgerState) (fr : FragmentoRow) :
    (insertFragmento s fr).versions = s.versions := by
  unfold insertFragmento
  split <;> rfl

/-- The pending-marker insert leaves the version table unchanged. -/
theorem insertPending_versions (s : LedgerState) (idf : String) :
    (insertPending s idf).versions = s.versions := by
  unfold insertPending
  split <;> rfl

/-- The fragment loop of the per-version body leaves the version
table unchanged. -/
theorem fragFold_versions (idv : String) (chs : List Chunk) :
    ∀ s : LedgerState, (chs.foldl (fragStep idv) s).versions = s.versions := by
  induction chs with
  | nil => intro s; rfl
  | cons ch rest ih =>
      intro s
      rw [List.foldl_cons, ih]
      unfold fragStep
      dsimp only
      split
      · rfl
      · rw [insertPending_versions, insertFragmento_versions]

/-- Membership in the version table after an upsert: the row was
already there, or it carries the upserted effective-end value. -/
theorem upsertVersion_mem {s : LedgerState} {vr r : VersionRow}
    (hr : r ∈ (upsertVersion s vr).versions) :
    r ∈ s.versions ∨ r.vigencia_hasta = vr.vigencia_hasta := by
  unfold upsertVersion at hr
  by_cases hany : (s.versions.any fun r0 => r0.id_version == vr.id_version) = true
  · rw [if_pos hany] at hr
    simp only [List.mem_map] at hr
    obtain ⟨r0, hr0, hre⟩ := hr
    by_cases hk : (r0.id_version == vr.id_version) = true
    · rw [if_pos hk] at hre
      right
      rw [← hre]
    · rw [if_neg hk] at hre
      left
      rw [← hre]
      exact hr0
  · rw [if_neg hany] at hr
    simp only [List.mem_append, List.mem_singleton] at hr
    rcases hr with hr | hr
    · left; exact hr
    · right; rw [hr]

/-- Membership in the version table after one per-version body: the
row was already there, or it was inserted with a null effective-end
date. -/
theorem processVersionBody_mem {normalize : String → String} {chunkf : String → List Chunk}
    {id_norma id_bloque : String} {s : LedgerState} {v : VersionPayload} {r : VersionRow}
    (hr : r ∈ (processVersionBody normalize chunkf id_norma id_bloque s v).versions) :
    r ∈ s.versions ∨ r.vigencia_hasta = none := by
  unfold processVersionBody at hr
  by_cases hh : v.html = ""
  · rw [if_pos hh] at hr
    left; exact hr
  · rw [if_neg hh] at hr
    dsimp only at hr
    split at hr
    · left; exact hr
    · rw [fragFold_versions] at hr
      exact upsertVersion_mem hr

/-- C8: every version row present after the `sync_bloques_batch`
insert path ran over a block's fetched versions either predates the
run or was written with `vigencia_hasta` null — the sync path never
writes a non-null effective-end. -/
theorem sync_writes_null_vigencia_hasta :
    ∀ (normalize : String → String) (chunkf : String → List Chunk)
      (id_norma id_bloque : String) (s : LedgerState) (vs : List VersionPayload)
      (r : VersionRow),
      r ∈ (syncBloqueVersiones normalize chunkf id_norma id_bloque s vs).versions →
      r ∈ s.versions ∨ r.vigencia_hasta = none := by
  intro normalize chunkf id_norma id_bloque s vs
  unfold syncBloqueVersiones
  induction vs generalizing s with
  | nil => intro r hr; left; exact hr
  | cons v rest ih =>
      intro r hr
      rw [List.foldl_cons] at hr
      rcases ih _ r hr with hmem | hnull
      · exact processVersionBody_mem hmem
      · right; exact hnull

/-- Witness for C8: a pre-existing row with a null effective-end on a
run over no fetched versions. -/
theorem sync_writes_null_vigencia_hasta_witness :
    (⟨"idv", "n", "b", none, none, none, none, "hh", "ht"⟩ : VersionRow) ∈
        (syncBloqueVersiones (fun t => t) (fun _ => []) "n" "b"
          ⟨[⟨"idv", "n", "b", none, none, none, none, "hh", "ht"⟩], [], []⟩ []).versions ∧
    ((⟨"idv", "n", "b", none, none, none, none, "hh", "ht"⟩ : VersionRow) ∈
        ([⟨"idv", "n", "b", none, none, none, none, "hh", "ht"⟩] : List VersionRow) ∨
      (⟨"idv", "n", "b", none, none, none, none, "hh", "ht"⟩ : VersionRow).vigencia_hasta =
        none) :=
  ⟨List.mem_singleton.mpr rfl,
   sync_writes_null_vigencia_hasta (fun t => t) (fun _ => []) "n" "b"
     ⟨[⟨"idv", "n", "b", none, none, none, none, "hh", "ht"⟩], [], []⟩ []
     ⟨"idv", "n", "b", none, none, none, none, "hh", "ht"⟩
     (List.mem_singleton.mpr rfl)⟩

/-- The version-ID column of the ledger. -/
def vkeys (s : LedgerState) : List String := s.versions.map VersionRow.id_version

/-- The deterministic version ID the per-version body computes for a
payload (independent of the ledger state). -/
def versionIdOf (id_norma id_bloque : String) (v : VersionPayload) : String :=
  generate_id_version id_norma id_bloque v.fecha_vigencia_desde v.id_norma_modificadora
    (calculate_hash (some v.html))

/-- The check `check_version_exists` answers membership in the version-ID
column. -/
theorem check_version_exists_iff (s : LedgerState) (idv : String) :
    check_version_exists s idv = true ↔ idv ∈ vkeys s := by
  unfold check_version_exists vkeys
  rw [List.any_eq_true]
  constructor
  · rintro ⟨r, hr, hk⟩
    rw [beq_iff_eq] at hk
    rw [← hk]
    exact List.mem_map_of_mem _ hr
  · intro hx
    rw [List.mem_map] at hx
    obtain ⟨r, hr, hk⟩ := hx
    exact ⟨r, hr, by rw [beq_iff_eq, hk]⟩

/-- On a key conflict, the upsert leaves the version-ID column
unchanged. -/
theorem upsertVersion_vkeys_of_any (s : LedgerState) (vr : VersionRow)
    (hany : (s.versions.any fun r => r.id_version == vr.id_version) = true) :
    vkeys (upsertVersion s vr) = vkeys s := by
  unfold upsertVersion vkeys
  rw [if_pos hany]
  dsimp only
  rw [List.map_map]
  apply List.map_congr_left
  intro r _
  dsimp only [Function.comp]
  split <;> rfl

/-- The upsert preserves version-ID membership. -/
theorem upsertVersion_vkeys_mono {s : LedgerState} {vr : VersionRow} {x : String}
    (hx : x ∈ vkeys s) : x ∈ vkeys (upsertVersion s vr) := by
  by_cases hany : (s.versions.any fun r => r.id_version == vr.id_version) = true
  · rw [upsertVersion_vkeys_of_any s vr hany]
    exact hx
  · unfold upsertVersion vkeys
    rw [if_neg hany]
    dsimp only
    rw [List.map_append]
    exact List.mem_append_left _ hx

/-- The upserted ID is in the version-ID column afterwards. -/
theorem upsertVersion_vkeys_self (s : LedgerState) (vr : VersionRow) :
    vr.id_version ∈ vkeys (upsertVersion s vr) := by
  by_cases hany : (s.versions.any fun r => r.id_version == vr.id_version) = true
  · rw [upsertVersion_vkeys_of_any s vr hany]
    rw [List.any_eq_true] at hany
    obtain ⟨r, hr, hk⟩ := hany
    rw [beq_iff_eq] at hk
    rw [← hk]
    exact List.mem_map_of_mem _ hr
  · unfold upsertVersion vkeys
    rw [if_neg hany]
    dsimp only
    rw [List.map_append]
    exact List.mem_append_right _ (by simp)

/-- The per-version body never removes a version ID. -/
theorem processVersionBody_vkeys_mono {normalize : String → String}
    {chunkf : String → List Chunk} {id_norma id_bloque : String} {s : LedgerState}
    {v : VersionPayload} {x : String} (hx : x ∈ vkeys s) :
    x ∈ vkeys (processVersionBody normalize chunkf id_norma id_bloque s v) := by
  unfold processVersionBody
  split
  · exact hx
  · dsimp only
    split
    · exact hx
    · unfold vkeys
      rw [fragFold_versions]
      exact upsertVersion_vkeys_mono hx

/-- After the body runs on a payload with non-empty markup, the
payload's deterministic version ID is present. -/
theorem processVersionBody_adds (normalize : String → String)
    (chunkf : String → List Chunk) (id_norma id_bloque : String) (s : LedgerState)
    {v : VersionPayload} (hh : ¬ v.html = "") :
    versionIdOf id_norma id_bloque v ∈
      vkeys (processVersionBody normalize chunkf id_norma id_bloque s v) := by
  unfold processVersionBody
  rw [if_neg hh]
  dsimp only
  split
  · next hcheck => exact (check_version_exists_iff _ _).mp hcheck
  · unfold vkeys
    rw [fragFold_versions]
    exact upsertVersion_vkeys_self _ _

/-- The body is the identity on payloads with empty markup or an
already-present version ID. -/
theorem processVersionBody_skip {normalize : String → String}
    {chunkf : String → List Chunk} {id_norma id_bloque : String} {s : LedgerState}
    {v : VersionPayload}
    (h : v.html = "" ∨ versionIdOf id_norma id_bloque v ∈ vkeys s) :
    processVersionBody normalize chunkf id_norma id_bloque s v = s := by
  unfold processVersionBody
  rcases h with hh | hid
  · rw [if_pos hh]
  · by_cases hh : v.html = ""
    · rw [if_pos hh]
    · rw [if_neg hh]
      dsimp only
      split
      · rfl
      · next hcheck => exact absurd ((check_version_exists_iff _ _).mpr hid) hcheck

/-- The block loop never removes a version ID. -/
theorem syncBloqueVersiones_vkeys_mono {normalize : String → String}
    {chunkf : String → List Chunk} {id_norma id_bloque : String} {x : String} :
    ∀ {vs : List VersionPayload} {s : LedgerState}, x ∈ vkeys s →
      x ∈ vkeys (syncBloqueVersiones normalize chunkf id_norma id_bloque s vs) := by
  intro vs
  unfold syncBloqueVersiones
  induction vs with
  | nil => intro s hx; exact hx
  | cons v rest ih =>
      intro s hx
      rw [List.foldl_cons]
      exact ih (processVersionBody_vkeys_mono hx)

/-- After the block loop, every processed payload is skippable: its
markup was empty or its version ID is present. -/
theorem syncBloqueVersiones_adds {normalize : String → String}
    {chunkf : String → List Chunk} {id_norma id_bloque : String} :
    ∀ {vs : List VersionPayload} {s : LedgerState} {v : VersionPayload}, v ∈ vs →
      v.html = "" ∨ versionIdOf id_norma id_bloque v ∈
        vkeys (syncBloqueVersiones normalize chunkf id_norma id_bloque s vs) := by
  intro vs
  unfold syncBloqueVersiones
  induction vs with
  | nil => intro s v hv; exact absurd hv (List.not_mem_nil v)
  | cons w rest ih =>
      intro s v hv
      rw [List.foldl_cons]
      rcases List.mem_cons.mp hv with rfl | hv'
      · by_cases hh : v.html = ""
        · left; exact hh
        · right
          have h1 := processVersionBody_adds normalize chunkf id_norma id_bloque s hh
          exact @syncBloqueVersiones_vkeys_mono normalize chunkf id_norma id_bloque _ rest _ h1
      · exact ih hv'

/-- The block loop is the identity when every payload is skippable. -/
theorem syncBloqueVersiones_skip {normalize : String → String}
    {chunkf : String → List Chunk} {id_norma id_bloque : String} :
    ∀ {vs : List VersionPayload} {s : LedgerState},
      (∀ v ∈ vs, v.html = "" ∨ versionIdOf id_norma id_bloque v ∈ vkeys s) →
      syncBloqueVersiones normalize chunkf id_norma id_bloque s vs = s := by
  intro vs
  unfold syncBloqueVersiones
  induction vs with
  | nil => intro s _; rfl
  | cons v rest ih =>
      intro s hall
      rw [List.foldl_cons, processVersionBody_skip (hall v (List.mem_cons_self v rest))]
      exact ih fun w hw => hall w (List.mem_cons_of_mem v hw)

/-- The version upsert touches only the version table. -/
theorem upsertVersion_fragmentos (s : LedgerState) (vr : VersionRow) :
    (upsertVersion s vr).fragmentos = s.fragmentos := by
  unfold upsertVersion
  split <;> rfl

/-- The version upsert touches only the version table. -/
theorem upsertVersion_pendings (s : LedgerState) (vr : VersionRow) :
    (upsertVersion s vr).pendings = s.pendings := by
  unfold upsertVersion
  split <;> rfl

/-- The fragment insert touches only the fragment table. -/
theorem insertFragmento_pendings (s : LedgerState) (fr : FragmentoRow) :
    (insertFragmento s fr).pendings = s.pendings := by
  unfold insertFragmento
  split <;> rfl

/-- The pending-marker insert touches only the queue table. -/
theorem insertPending_fragmentos (s : LedgerState) (idf : String) :
    (insertPending s idf).fragmentos = s.fragmentos := by
  unfold insertPending
  split <;> rfl

/-- The version upsert keeps every key column duplicate-free. -/
theorem upsertVersion_wf {s : LedgerState} (vr : VersionRow) (h : ledgerWf s) :
    ledgerWf (upsertVersion s vr) := by
  obtain ⟨h1, h2, h3⟩ := h
  refine ⟨?_, ?_, ?_⟩
  · by_cases hany : (s.versions.any fun r => r.id_version == vr.id_version) = true
    · show (vkeys _).Nodup
      rw [upsertVersion_vkeys_of_any s vr hany]
      exact h1
    · unfold upsertVersion
      rw [if_neg hany]
      dsimp only
      rw [List.map_append, List.nodup_append]
      refine ⟨h1, by simp, ?_⟩
      intro x hx hx'
      simp only [List.map_cons, List.map_nil, List.mem_singleton] at hx'
      subst hx'
      rw [List.mem_map] at hx
      obtain ⟨r, hr, he⟩ := hx
      exact hany (List.any_eq_true.mpr ⟨r, hr, by rw [beq_iff_eq, he]⟩)
  · rw [upsertVersion_fragmentos]
    exact h2
  · rw [upsertVersion_pendings]
    exact h3

/-- The fragment insert keeps every key column duplicate-free. -/
theorem insertFragmento_wf {s : LedgerState} (fr : FragmentoRow) (h : ledgerWf s) :
    ledgerWf (insertFragmento s fr) := by
  obtain ⟨h1, h2, h3⟩ := h
  unfold insertFragmento
  by_cases hany : (s.fragmentos.any fun r => r.id_fragmento == fr.id_fragmento) = true
  · rw [if_pos hany]
    exact ⟨h1, h2, h3⟩
  · rw [if_neg hany]
    refine ⟨h1, ?_, h3⟩
    dsimp only
    rw [List.map_append, List.nodup_append]
    refine ⟨h2, by simp, ?_⟩
    intro x hx hx'
    simp only [List.map_cons, List.map_nil, List.mem_singleton] at hx'
    subst hx'
    rw [List.mem_map] at hx
    obtain ⟨r, hr, he⟩ := hx
    exact hany (List.any_eq_true.mpr ⟨r, hr, by rw [beq_iff_eq, he]⟩)

/-- The pending-marker insert keeps every key column
duplicate-free. -/
theorem insertPending_wf {s : LedgerState} (idf : String) (h : ledgerWf s) :
    ledgerWf (insertPending s idf) := by
  obtain ⟨h1, h2, h3⟩ := h
  unfold insertPending
  by_cases hany : (s.pendings.any fun r => r.id_fragmento == idf) = true
  · rw [if_pos hany]
    exact ⟨h1, h2, h3⟩
  · rw [if_neg hany]
    refine ⟨h1, h2, ?_⟩
    dsimp only
    rw [List.map_append, List.nodup_append]
    refine ⟨h3, by simp, ?_⟩
    intro x hx hx'
    simp only [List.map_cons, List.map_nil, List.mem_singleton] at hx'
    subst hx'
    rw [List.mem_map] at hx
    obtain ⟨r, hr, he⟩ := hx
    exact hany (List.any_eq_true.mpr ⟨r, hr, by rw [beq_iff_eq, he]⟩)

/-- One fragment-loop step keeps every key column duplicate-free. -/
theorem fragStep_wf {s : LedgerState} (idv : String) (ch : Chunk) (h : ledgerWf s) :
    ledgerWf (fragStep idv s ch) := by
  unfold fragStep
  dsimp only
  split
  · exact h
  · exact insertPending_wf _ (insertFragmento_wf _ h)

/-- The fragment loop keeps every key column duplicate-free. -/
theorem fragFold_wf (idv : String) (chs : List Chunk) :
    ∀ {s : LedgerState}, ledgerWf s → ledgerWf (chs.foldl (fragStep idv) s) := by
  induction chs with
  | nil => intro s h; exact h
  | cons ch rest ih =>
      intro s h
      rw [List.foldl_cons]
      exact ih (fragStep_wf idv ch h)

/-- The per-version body keeps every key column duplicate-free. -/
theorem processVersionBody_wf {normalize : String → String} {chunkf : String → List Chunk}
    {id_norma id_bloque : String} {s : LedgerState} {v : VersionPayload}
    (h : ledgerWf s) :
    ledgerWf (processVersionBody normalize chunkf id_norma id_bloque s v) := by
  unfold processVersionBody
  split
  · exact h
  · dsimp only
    split
    · exact h
    · exact fragFold_wf _ _ (upsertVersion_wf _ h)

/-- The block loop keeps every key column duplicate-free. -/
theorem syncBloqueVersiones_wf {normalize : String → String} {chunkf : String → List Chunk}
    {id_norma id_bloque : String} :
    ∀ {vs : List VersionPayload} {s : LedgerState}, ledgerWf s →
      ledgerWf (syncBloqueVersiones normalize chunkf id_norma id_bloque s vs) := by
  intro vs
  unfold syncBloqueVersiones
  induction vs with
  | nil => intro s h; exact h
  | cons v rest ih =>
      intro s h
      rw [List.foldl_cons]
      exact ih (processVersionBody_wf h)

/-- C2: running the per-version insert path of `sync_bloques_batch`
(version upsert, fragment inserts, pending-embedding inserts) a
second time over the same version payload list leaves the ledger in
the state the first run produced — the second run inserts nothing —
and the run preserves the one-row-per-deterministic-identity
invariant of all three tables. -/
theorem sync_insert_path_idempotent :
    ∀ (normalize : String → String) (chunkf : String → List Chunk)
      (id_norma id_bloque : String) (s : LedgerState) (vs : List VersionPayload),
      syncBloqueVersiones normalize chunkf id_norma id_bloque
          (syncBloqueVersiones normalize chunkf id_norma id_bloque s vs) vs =
        syncBloqueVersiones normalize chunkf id_norma id_bloque s vs ∧
      (ledgerWf s →
        ledgerWf (syncBloqueVersiones normalize chunkf id_norma id_bloque s vs)) := by
  intro normalize chunkf id_norma id_bloque s vs
  constructor
  · exact syncBloqueVersiones_skip fun v hv => syncBloqueVersiones_adds hv
  · exact fun hwf => syncBloqueVersiones_wf hwf

/-- Witness for C2: the insert path run twice from the empty ledger
over one concrete version payload. -/
theorem sync_insert_path_idempotent_witness :
    ledgerWf ⟨[], [], []⟩ ∧
    syncBloqueVersiones (fun t => t) (fun _ => []) "BOE-A-2000-1" "a1"
        (syncBloqueVersiones (fun t => t) (fun _ => []) "BOE-A-2000-1" "a1" ⟨[], [], []⟩
          [⟨"<p>Texto</p>", some ⟨2024, 1, 1⟩, none, none⟩])
        [⟨"<p>Texto</p>", some ⟨2024, 1, 1⟩, none, none⟩] =
      syncBloqueVersiones (fun t => t) (fun _ => []) "BOE-A-2000-1" "a1" ⟨[], [], []⟩
        [⟨"<p>Texto</p>", some ⟨2024, 1, 1⟩, none, none⟩] ∧
    ledgerWf (syncBloqueVersiones (fun t => t) (fun _ => []) "BOE-A-2000-1" "a1"
      ⟨[], [], []⟩ [⟨"<p>Texto</p>", some ⟨2024, 1, 1⟩, none, none⟩]) :=
  ⟨by decide,
   (sync_insert_path_idempotent (fun t => t) (fun _ => []) "BOE-A-2000-1" "a1" ⟨[], [], []⟩
     [⟨"<p>Texto</p>", some ⟨2024, 1, 1⟩, none, none⟩]).1,
   (sync_insert_path_idempotent (fun t => t) (fun _ => []) "BOE-A-2000-1" "a1" ⟨[], [], []⟩
     [⟨"<p>Texto</p>", some ⟨2024, 1, 1⟩, none, none⟩]).2 (by decide)⟩

/-- A found sentence break lies strictly above the search floor and
at most at the scan origin. -/
theorem findSentenceBreak_bounds (text : List Char) (lo : Nat) :
    ∀ i j, findSentenceBreak text lo i = some j → lo < j ∧ j ≤ i := by
  intro i
  induction i with
  | zero =>
      intro j h
      exact absurd h (by simp [findSentenceBreak])
  | succ i ih =>
      intro j h
      unfold findSentenceBreak at h
      split at h
      · exact absurd h (by simp)
      · split at h
        · rw [Option.some.injEq] at h
          omega
        · obtain ⟨h1, h2⟩ := ih j h
          exact ⟨h1, by omega⟩

/-- The adjusted chunk end loses at most 197 positions against the
ideal end when the target exceeds 200. -/
theorem splitEnd_lb (text : List Char) (target start : Nat) (h200 : 200 < target) :
    start + target - 197 ≤ splitEnd text target start := by
  unfold splitEnd
  dsimp only
  split
  · split
    · next i hfind =>
        have hb := findSentenceBreak_bounds text (max start (start + target - 200))
          (start + target) i hfind
        omega
    · omega
  · omega

/-- Under the claimed precondition, one loop iteration advances the
scan position by at least four. -/
theorem splitNextStart_advance (text : List Char) (target overlap start : Nat)
    (hpre : overlap + 200 < target) :
    start + 4 ≤ splitNextStart text target overlap start := by
  have hlb := splitEnd_lb text target start (by omega)
  unfold splitNextStart
  dsimp only
  split
  · omega
  · omega

/-- With fuel covering a quarter of the remaining text, the split
loop finishes (never exhausts its fuel). -/
theorem splitBySizeAux_isSome (text : List Char) (target overlap : Nat)
    (hpre : overlap + 200 < target) :
    ∀ fuel start, text.length ≤ start + 4 * fuel →
      (splitBySizeAux text target overlap fuel start).isSome = true := by
  intro fuel
  induction fuel with
  | zero =>
      intro start h
      unfold splitBySizeAux
      rw [if_pos (by omega)]
      rfl
  | succ f ih =>
      intro start h
      unfold splitBySizeAux
      split
      · dsimp only
        have hadv := splitNextStart_advance text target overlap start hpre
        have hrec := ih (splitNextStart text target overlap start) (by omega)
        cases hrec' : splitBySizeAux text target overlap f
            (splitNextStart text target overlap start) with
        | none => rw [hrec'] at hrec; simp at hrec
        | some rest => rfl
      · rfl

/-- C10: for every text and all parameters with `overlap + 200 <
target_size` (satisfied by the default 2400-character target with
200 characters of overlap), the `_split_by_size` loop terminates:
every iteration strictly advances the scan position (by at least 4),
so the fuelled loop never exhausts a fuel of `text.length + 1` and
`_split_by_size` returns its completed chunk list. -/
theorem split_by_size_terminates :
    ∀ (text : String) (target_size overlap : Nat), overlap + 200 < target_size →
      (∀ start, start + 4 ≤ splitNextStart text.data target_size overlap start) ∧
      (splitBySizeAux text.data target_size overlap (text.data.length + 1) 0).isSome =
        true ∧
      (∀ r, splitBySizeAux text.data target_size overlap (text.data.length + 1) 0 =
        some r → _split_by_size text target_size overlap = r) := by
  intro text target overlap hpre
  refine ⟨fun start => splitNextStart_advance text.data target overlap start hpre,
    splitBySizeAux_isSome text.data target overlap hpre _ 0 (by omega), ?_⟩
  intro r hr
  unfold _split_by_size
  rw [hr]
  rfl

/-- Witness for C10 at a concrete text and parameters meeting the
precondition. -/
theorem split_by_size_terminates_witness :
    (0 + 200 < 201 ∧
      0 + 4 ≤ splitNextStart "One. Two.".data 201 0 0) ∧
    (splitBySizeAux "One. Two.".data 201 0 ("One. Two.".data.length + 1) 0).isSome =
      true :=
  ⟨⟨by decide, (split_by_size_terminates "One. Two." 201 0 (by decide)).1 0⟩,
   (split_by_size_terminates "One. Two." 201 0 (by decide)).2.1⟩

end Boe
